import Mathlib

/-!
Shallow embedding of the CIBC statement parser (`app/pdf_parser.py`) of the
FinanceTracker repository, together with theorems settling the specified
properties of the parser.

Modelling conventions:
* Python `str` values are Lean `String`s; the string algorithms work on
  `List Char`.  The statement data is ASCII, so ASCII case mapping and the
  ASCII digit/letter classes model Python's `str.upper`, `\d`, `[A-Za-z]`.
* Python `float` amounts are modelled as `Rat` over the decimal-literal
  fragment of `float(...)` (optional surrounding whitespace, optional sign,
  digits with an optional decimal point) — the only fragment the parser's
  amount tokens can exercise, since they are drawn from the characters
  `- $ , .` and digits.
* `pandas.to_datetime(f"{mon} {int(day)} {year}", errors="coerce")` is
  modelled on the `Mon D YYYY` layout it receives here: a case-insensitive
  three-letter English month abbreviation and a day within the month,
  `none` standing for `NaT`.
-/

namespace FinanceTracker

/-- Whitespace characters stripped by Python `str.strip()` (ASCII fragment). -/
def isWs (c : Char) : Bool :=
  c = ' ' || c = '\t' || c = '\n' || c = '\r' || c = '\x0b' || c = '\x0c'

/-- Strip whitespace from both ends of a character list (`str.strip()`). -/
def trimChars (l : List Char) : List Char :=
  ((l.dropWhile isWs).reverse.dropWhile isWs).reverse

/-- ASCII upper-casing of every character (`str.upper()` on ASCII data). -/
def upperChars (l : List Char) : List Char :=
  l.map Char.toUpper

/-- Substring containment: `hasSub p l` is Python's `p in l` for strings. -/
def hasSub (p : List Char) : List Char → Bool
  | [] => p.isPrefixOf []
  | c :: t => p.isPrefixOf (c :: t) || hasSub p t

/-- `strContains s pat` is Python's `pat in s`. -/
def strContains (s pat : String) : Bool :=
  hasSub pat.toList s.toList

/-- Python `str.strip()`. -/
def pyStrip (s : String) : String :=
  String.mk (trimChars s.toList)

/-- Whitespace-splitting worker: `cur` holds the current token reversed. -/
def wordsAux (cur : List Char) : List Char → List (List Char)
  | [] => if cur.isEmpty then [] else [cur.reverse]
  | c :: t =>
    if isWs c then
      if cur.isEmpty then wordsAux [] t else cur.reverse :: wordsAux [] t
    else
      wordsAux (c :: cur) t

/-- Python `str.split()` with no argument: split on whitespace runs. -/
def splitWs (s : String) : List String :=
  (wordsAux [] s.toList).map String.mk

/-- Numeric value of an ASCII digit character. -/
def digitVal (c : Char) : Nat :=
  c.toNat - 48

/-- Value of a list of ASCII digits read in base 10. -/
def natOfDigits (l : List Char) : Nat :=
  l.foldl (fun a c => 10 * a + digitVal c) 0

/-- Longest digit run at the head of the list, and the rest. -/
def spanDigits : List Char → List Char × List Char
  | [] => ([], [])
  | c :: t =>
    if c.isDigit then
      let p := spanDigits t
      (c :: p.1, p.2)
    else
      ([], c :: t)

/-- Python `int(s)` on the decimal fragment: optional surrounding whitespace,
optional sign, a nonempty digit run.  `none` models `ValueError`. -/
def pyIntOfChars (l0 : List Char) : Option Int :=
  let l := trimChars l0
  let sp : Bool × List Char :=
    match l with
    | [] => (false, [])
    | c :: t => if c = '-' then (true, t) else if c = '+' then (false, t) else (false, c :: t)
  let l1 := sp.2
  if !l1.isEmpty && l1.all Char.isDigit then
    some (if sp.1 then -(natOfDigits l1 : Int) else (natOfDigits l1 : Int))
  else
    none

/-- Optional leading sign of a numeric literal: `(negative?, rest)`. -/
def pySign : List Char → Bool × List Char
  | [] => (false, [])
  | c :: t => if c = '-' then (true, t) else if c = '+' then (false, t) else (false, c :: t)

/-- Fraction part after the decimal point: `ip` is the integer-part digit
run, `r2` the characters after `'.'`; the value is the whole digit string
over `10 ^ (number of fraction digits)`. -/
def pyFrac (ip r2 : List Char) : Option Rat :=
  match spanDigits r2 with
  | (fp, []) =>
    if ip.isEmpty && fp.isEmpty then none
    else some (mkRat (Int.ofNat (natOfDigits (ip ++ fp))) (10 ^ fp.length))
  | _ => none

/-- Unsigned decimal literal: digits, optionally followed by a decimal
point and fraction digits; nothing else may remain. -/
def pyUnsigned (l : List Char) : Option Rat :=
  match spanDigits l with
  | (ip, []) => if ip.isEmpty then none else some (mkRat (Int.ofNat (natOfDigits ip)) 1)
  | (ip, '.' :: r2) => pyFrac ip r2
  | _ => none

/-- Python `float(s)` on the decimal-literal fragment: optional surrounding
whitespace, optional sign, digits with an optional decimal point and an
optional fraction.  The result is the exact decimal value as a `Rat`;
`none` models `ValueError`. -/
def pyFloatOfChars (l0 : List Char) : Option Rat :=
  (pyUnsigned (pySign (trimChars l0)).2).map
    (fun v => if (pySign (trimChars l0)).1 then Rat.neg v else v)

/-! ### The `AMOUNT_AT_END` regular expression

`AMOUNT_AT_END = re.compile(r"(-?\$?\d[\d,]*\.?\d{0,2})$")`.
`AMOUNT_AT_END.search(ln)` returns the leftmost position whose suffix
matches the token pattern; since the pattern ends in `$` and cannot skip
characters, the captured group is the longest suffix of the line lying in
the token language. -/

/-- Drop one leading occurrence of `a`, if present (`-?` / `\$?`). -/
def dropOptChar (a : Char) : List Char → List Char
  | [] => []
  | c :: t => if c = a then t else c :: t

/-- Split at the first `'.'`: `(before, some after)` when a dot occurs,
`(l, none)` otherwise. -/
def splitFirstDot : List Char → List Char × Option (List Char)
  | [] => ([], none)
  | c :: t =>
    if c = '.' then
      ([], some t)
    else
      let p := splitFirstDot t
      (c :: p.1, p.2)

/-- Character class `[\d,]`. -/
def isDigitComma (c : Char) : Bool :=
  c.isDigit || c = ','

/-- Language of `[\d,]*\.?\d{0,2}` (the part after the leading digit):
either no dot and every character in `[\d,]`, or one dot with `[\d,]`
characters before it and at most two digits after it. -/
def amtTail (r : List Char) : Bool :=
  match splitFirstDot r with
  | (before, none) => before.all isDigitComma
  | (before, some after) =>
    before.all isDigitComma && after.all Char.isDigit && decide (after.length ≤ 2)

/-- Full-token match of `-?\$?\d[\d,]*\.?\d{0,2}`. -/
def amtTok (l : List Char) : Bool :=
  match dropOptChar '$' (dropOptChar '-' l) with
  | [] => false
  | c :: r => c.isDigit && amtTail r

/-- `AMOUNT_AT_END.search`: the longest suffix in the token language
(equivalently, the leftmost match position of the `$`-anchored pattern). -/
def findAmtSuffix : List Char → Option (List Char)
  | [] => none
  | c :: t => if amtTok (c :: t) then some (c :: t) else findAmtSuffix t

/-- Characters kept by `token.replace(",", "").replace("$", "")`. -/
def keepAmtChar (c : Char) : Bool :=
  !(c = ',' || c = '$')

/-- `parse_amount`: strip thousands separators and the currency symbol,
then parse as a decimal number (`float`), `none` on failure. -/
def parse_amount (token : String) : Option Rat :=
  pyFloatOfChars (token.toList.filter keepAmtChar)

/-! ### Dates (`to_date` / `guess_year`) -/

/-- A calendar date (year, month, day). -/
structure PDate where
  y : Nat
  m : Nat
  d : Nat
deriving DecidableEq, Repr

/-- The twelve month abbreviations, `MONTHS` in the source. -/
def MONTHS : List String :=
  ["Jan", "Feb", "Mar", "Apr", "May", "Jun", "Jul", "Aug", "Sep", "Oct", "Nov", "Dec"]

/-- Month number (1–12) of a case-insensitive three-letter abbreviation. -/
def monthNum (mon : String) : Option Nat :=
  (MONTHS.findIdx? (fun ab => upperChars ab.toList = upperChars mon.toList)).map (· + 1)

/-- Gregorian leap-year test. -/
def isLeap (y : Nat) : Bool :=
  (y % 4 == 0 && y % 100 != 0) || y % 400 == 0

/-- Number of days in a month of a given year. -/
def daysInMonth (y m : Nat) : Nat :=
  if m = 2 then (if isLeap y then 29 else 28)
  else if m ∈ [4, 6, 9, 11] then 30
  else 31

/-- `to_date(mon, day, year)`: `pd.to_datetime(f"{mon} {int(day)} {year}",
errors="coerce")` on the `Mon D YYYY` layout it receives; `none` is `NaT`
(from `int(day)` raising, an unknown month, or an out-of-range day). -/
def to_date (mon day : String) (year : Nat) : Option PDate :=
  match pyIntOfChars day.toList with
  | none => none
  | some d =>
    match monthNum mon with
    | none => none
    | some m =>
      if 1 ≤ d ∧ d ≤ (daysInMonth year m : Int) then some ⟨year, m, d.toNat⟩ else none

/-- Word characters of `\b` in the year regular expression (`\w` on ASCII). -/
def isWordChar (c : Char) : Bool :=
  c.isAlphanum || c = '_'

/-- A `20\d{2}` match starting at the head of the list whose right edge is a
word boundary: yields the year's value. -/
def yearHere : List Char → Option Nat
  | '2' :: '0' :: c :: d :: rest =>
    if c.isDigit && d.isDigit && (match rest with | [] => true | e :: _ => !isWordChar e) then
      some (2000 + 10 * digitVal c + digitVal d)
    else
      none
  | _ => none

/-- Left word boundary of `\b`: satisfied at the start of the text or after a
non-word character. -/
def boundaryOk : Option Char → Bool
  | none => true
  | some c => !isWordChar c

/-- Left-to-right scan of `re.search(r"\b(20\d{2})\b", ·)`: `prev` is the
character just before the current position (`none` at the start). -/
def findYear : Option Char → List Char → Option Nat
  | _, [] => none
  | prev, c :: t =>
    match (if boundaryOk prev then yearHere (c :: t) else none) with
    | some v => some v
    | none => findYear (some c) t

/-- `guess_year`: first `20xx` year token in the text, else the current
calendar year (passed in explicitly, as the code samples `date.today()`). -/
def guess_year (text : String) (todayYear : Nat) : Nat :=
  (findYear none text.toList).getD todayYear

/-! ### Records, keyword lists, category rules -/

/-- A row of the transactions output: Bank, Trans date, Post date,
Description, Category, Amount. -/
structure TxRecord where
  bank : String
  transDate : Option PDate
  postDate : Option PDate
  description : String
  category : Option String
  amount : Rat
deriving DecidableEq, Repr

/-- A row of the payments output: Bank, Trans date, Post date, Description,
Amount. -/
structure PayRecord where
  bank : String
  transDate : Option PDate
  postDate : Option PDate
  description : String
  amount : Rat
deriving DecidableEq, Repr

/-- Section state of the line loop: `inside_txn` / `inside_pay` flags. -/
structure PState where
  inside_txn : Bool
  inside_pay : Bool
deriving DecidableEq, Repr

/-- `PAYMENT_WORDS` from the source. -/
def PAYMENT_WORDS : List String :=
  ["PAYMENT", "PAYMENT - THANK YOU", "ONLINE PAYMENT", "MOBILE PAYMENT", "E-PMT"]

/-- `CATEGORY_RULES` from the source: ordered (substring, label) pairs. -/
def CATEGORY_RULES : List (String × String) :=
  [("DENTAL", "Health"),
   ("DENTIST", "Health"),
   ("PHARMACY", "Health"),
   ("UBER EATS", "Restaurants"),
   ("PIZZA", "Restaurants"),
   ("STARBUCKS", "Restaurants"),
   ("TIM HORTONS", "Restaurants"),
   ("LOBLAW", "Grocery"),
   ("WALMART", "Grocery"),
   ("COSTCO", "Grocery"),
   ("NETFLIX", "Subscriptions"),
   ("SPOTIFY", "Subscriptions")]

/-- `looks_like_payment(desc)`: some payment keyword occurs in the
upper-cased description. -/
def looks_like_payment (desc : String) : Bool :=
  PAYMENT_WORDS.any (fun w => hasSub w.toList (upperChars desc.toList))

/-- The `for word, cat in CATEGORY_RULES` loop of `apply_category_rules`. -/
def ruleScan : List (String × String) → List Char → Option String
  | [], _ => none
  | (w, cat) :: rest, d => if hasSub w.toList d then some cat else ruleScan rest d

/-- `apply_category_rules(description, current_category)`. -/
def apply_category_rules (description : String) (currentCategory : Option String) :
    Option String :=
  if description = "" then currentCategory
  else
    match ruleScan CATEGORY_RULES (upperChars description.toList) with
    | some cat => some cat
    | none => currentCategory

/-! ### The line parser `parse_cibc_lines`

The per-line body of the `for ln in lines` loop is factored, preserving the
source's check order, into:
* `sectionStep` — the three section/noise marker checks (each consumes the
  line and only updates the state);
* `extractFields` — the admission gate (month token, trailing amount match,
  amount parse, ≥ 6 tokens), the prefix-reconstruction check, and field
  extraction; `none` means the line is silently dropped;
* `classify` — the `inside_pay or looks_like_payment` / `inside_txn`
  classification, with the positional-category heuristic and the category
  rules on the transaction branch.
-/

/-- The noise markers that reset the section state. -/
def NOISE_MARKERS : List String :=
  ["Important Notice", "Spend Report", "Prepared for:", "Trademark"]

/-- Section toggles: `some st'` when the line is a section or noise marker
(consumed, state set to `st'`), `none` when it is a candidate data line. -/
def sectionStep (ln : String) : Option PState :=
  if strContains ln "Your payments" then some ⟨false, true⟩
  else if strContains ln "Your new charges and credits" then some ⟨true, false⟩
  else if NOISE_MARKERS.any (fun w => strContains ln w) then some ⟨false, false⟩
  else none

/-- Last index at which `p` occurs in the scanned list (`str.rfind`),
`i` being the index of the scan head. -/
def rfindFrom (p : List Char) : List Char → Nat → Option Nat
  | [], i => if p.isPrefixOf [] then some i else none
  | c :: t, i =>
    match rfindFrom p t (i + 1) with
    | some j => some j
    | none => if p.isPrefixOf (c :: t) then some i else none

/-- `ln.rfind(pat)` (only used where the occurrence exists). -/
def rfindChars (p l : List Char) : Option Nat :=
  rfindFrom p l 0

/-- Python slice `l[a:b]` on character lists. -/
def sliceChars (l : List Char) (a b : Nat) : List Char :=
  (l.drop a).take (b - a)

/-- `ln.endswith(p)` on character lists. -/
def endsWithChars (l p : List Char) : Bool :=
  p.reverse.isPrefixOf l.reverse

/-- Full match of `[A-Za-z\-]+` (the `maybe_cat` pattern). -/
def isAlphaHyphen (s : String) : Bool :=
  !s.toList.isEmpty && s.toList.all (fun c => c.isAlpha || c = '-')

/-- The reconstructed prefix `f"{trans_mon} {trans_day} {post_mon} {post_day} "`
built from the line's first four whitespace tokens. -/
def headOf (ln : String) : String :=
  let parts := splitWs ln
  parts.getD 0 "" ++ " " ++ parts.getD 1 "" ++ " " ++ parts.getD 2 "" ++ " " ++
    parts.getD 3 "" ++ " "

/-- Fields extracted from an admitted candidate line. -/
structure Fields where
  parts : List String
  amount : Rat
  transDate : Option PDate
  postDate : Option PDate
  description : String
deriving DecidableEq, Repr

/-- Admission gate and field extraction for one (already stripped) line,
in the source's check order: month-token prefilter, trailing-amount match,
amount parse, ≥ 6 tokens, date construction, prefix-reconstruction check,
description slice.  `none` means the line is silently dropped. -/
def extractFields (ln : String) (year : Nat) : Option Fields :=
  if !(MONTHS.any (fun m => strContains ln m)) then none
  else
    match findAmtSuffix ln.toList with
    | none => none
    | some tok =>
      match parse_amount (String.mk tok) with
      | none => none
      | some amount =>
        if (splitWs ln).length < 6 then none
        else if !((headOf ln).toList.isPrefixOf ln.toList) then none
        else
          some ⟨splitWs ln, amount,
            to_date ((splitWs ln).getD 0 "") ((splitWs ln).getD 1 "") year,
            to_date ((splitWs ln).getD 2 "") ((splitWs ln).getD 3 "") year,
            String.mk (trimChars (sliceChars ln.toList (headOf ln).toList.length
              ((rfindChars tok ln.toList).getD 0)))⟩

/-- `maybe_cat = parts[-2]`: the token immediately before the amount. -/
def maybeCatOf (f : Fields) : String :=
  f.parts.getD (f.parts.length - 2) ""

/-- The positional-category strip: if the description ends with `maybe_cat`,
remove it from the end and strip (`description[:-len(maybe_cat)].strip()`). -/
def strippedDescOf (f : Fields) : String :=
  if endsWithChars f.description.toList (maybeCatOf f).toList then
    String.mk (trimChars (f.description.toList.take
      (f.description.toList.length - (maybeCatOf f).toList.length)))
  else
    f.description

/-- Classification of an admitted line: payments by state or keyword, else
transactions by state (with the positional category heuristic and the
category rules), else dropped. -/
def classify (st : PState) (f : Fields) :
    Option TxRecord × Option PayRecord × PState :=
  if st.inside_pay || looks_like_payment f.description then
    (none, some ⟨"CIBC", f.transDate, f.postDate, f.description, f.amount⟩, st)
  else if st.inside_txn then
    if isAlphaHyphen (maybeCatOf f) then
      (some ⟨"CIBC", f.transDate, f.postDate, strippedDescOf f,
        apply_category_rules (strippedDescOf f) (some (maybeCatOf f)), f.amount⟩,
        none, st)
    else
      (some ⟨"CIBC", f.transDate, f.postDate, f.description,
        apply_category_rules f.description none, f.amount⟩, none, st)
  else
    (none, none, st)

/-- One iteration of the `for ln in lines` loop: the emitted transaction
row (if any), the emitted payment row (if any), and the next state. -/
def processLine (year : Nat) (st : PState) (ln0 : String) :
    Option TxRecord × Option PayRecord × PState :=
  if pyStrip ln0 = "" then (none, none, st)
  else
    match sectionStep (pyStrip ln0) with
    | some st' => (none, none, st')
    | none =>
      match extractFields (pyStrip ln0) year with
      | none => (none, none, st)
      | some f => classify st f

/-- Loop worker for `parse_cibc_lines`, threading the section state. -/
def parseLoop (year : Nat) : List String → PState → List TxRecord × List PayRecord
  | [], _ => ([], [])
  | ln :: rest, st =>
    let r := processLine year st ln
    let acc := parseLoop year rest r.2.2
    (r.1.toList ++ acc.1, r.2.1.toList ++ acc.2)

/-- `parse_cibc_lines(lines, year)`: both flags start false; the loop
accumulates transaction and payment rows in line order. -/
def parse_cibc_lines (lines : List String) (year : Nat) :
    List TxRecord × List PayRecord :=
  parseLoop year lines ⟨false, false⟩

/-- The 3-part admission gate as the specification phrases it: a month
abbreviation occurs in the line, the line ends with a trailing amount token
that parses to a number, and the line splits into at least 6 tokens. -/
def admissionGate (ln : String) : Bool :=
  MONTHS.any (fun m => strContains ln m) &&
    (match findAmtSuffix ln.toList with
     | none => false
     | some tok => (parse_amount (String.mk tok)).isSome) &&
    decide (6 ≤ (splitWs ln).length)

/-! ### Structural lemmas about the line loop -/

/-- A line whose field extraction fails produces no record (the state may
still move on a marker line). -/
theorem processLine_of_extract_none (year : Nat) (st : PState) (ln : String)
    (h : extractFields (pyStrip ln) year = none) :
    (processLine year st ln).1 = none ∧ (processLine year st ln).2.1 = none := by
  unfold processLine
  split
  · exact ⟨rfl, rfl⟩
  · split
    · exact ⟨rfl, rfl⟩
    · rw [h]
      exact ⟨rfl, rfl⟩

/-- A non-blank, non-marker line with successful field extraction is handed
to the classification step. -/
theorem processLine_eq_classify (year : Nat) (st : PState) (ln : String) (f : Fields)
    (hm : sectionStep (pyStrip ln) = none)
    (h : extractFields (pyStrip ln) year = some f) :
    processLine year st ln = classify st f := by
  unfold processLine
  split
  · rename_i hb
    rw [hb] at h
    have hnone : extractFields "" year = none := by
      unfold extractFields
      rw [if_pos]
      decide
    rw [hnone] at h
    cases h
  · rw [hm, h]

/-- The classification step emits at most one record. -/
theorem classify_at_most_one (st : PState) (f : Fields) :
    (classify st f).1 = none ∨ (classify st f).2.1 = none := by
  unfold classify
  split
  · exact Or.inl rfl
  · split
    · split
      · exact Or.inr rfl
      · exact Or.inr rfl
    · exact Or.inl rfl

/-- Successful extraction records the parsed trailing-amount value. -/
theorem extract_amount_eq (s : String) (year : Nat) (f : Fields)
    (h : extractFields s year = some f) :
    ∃ tok, findAmtSuffix s.toList = some tok ∧
      parse_amount (String.mk tok) = some f.amount := by
  unfold extractFields at h
  split at h
  · cases h
  · split at h
    · cases h
    · rename_i tok heq
      split at h
      · cases h
      · rename_i amt hp
        split at h
        · cases h
        · split at h
          · cases h
          · refine ⟨tok, heq, ?_⟩
            rw [hp]
            cases h
            rfl

/-- A line failing the 3-part admission gate fails field extraction. -/
theorem extract_none_of_gate_false (s : String) (year : Nat)
    (h : admissionGate s = false) : extractFields s year = none := by
  unfold extractFields
  split
  · rfl
  · rename_i hmon
    split
    · rfl
    · rename_i tok heq
      split
      · rfl
      · rename_i amt hp
        split
        · rfl
        · rename_i hlen
          split
          · rfl
          · exfalso
            have hgate : admissionGate s = true := by
              unfold admissionGate
              rw [heq]
              simp only [Bool.not_eq_true', Bool.not_eq_false] at hmon
              rw [hmon]
              show (true && (parse_amount (String.mk tok)).isSome &&
                decide (6 ≤ (splitWs s).length)) = true
              rw [hp]
              simp only [Option.isSome_some, Bool.true_and]
              exact decide_eq_true (by omega)
            rw [hgate] at h
            cases h

/-- A line passing the gate but failing the prefix-reconstruction check
fails field extraction. -/
theorem extract_none_of_head_mismatch (s : String) (year : Nat)
    (hh : (headOf s).toList.isPrefixOf s.toList = false) :
    extractFields s year = none := by
  unfold extractFields
  split
  · rfl
  · split
    · rfl
    · split
      · rfl
      · split
        · rfl
        · split
          · rfl
          · rename_i hcon
            exfalso
            simp only [Bool.not_eq_true', Bool.not_eq_false] at hcon
            rw [hcon] at hh
            cases hh

/-- The category rule loop returns the label of the first matching rule. -/
theorem ruleScan_eq_find (rules : List (String × String)) (d : List Char) :
    ruleScan rules d = (rules.find? (fun r => hasSub r.1.toList d)).map Prod.snd := by
  induction rules with
  | nil => rfl
  | cons r rest ih =>
    obtain ⟨w, cat⟩ := r
    show (if hasSub w.toList d = true then some cat else ruleScan rest d) =
      Option.map Prod.snd (List.find? (fun r => hasSub r.1.toList d) ((w, cat) :: rest))
    by_cases h : hasSub w.toList d = true
    · rw [if_pos h, List.find?_cons]
      simp only [h]
      rfl
    · rw [if_neg h, List.find?_cons]
      rw [Bool.not_eq_true] at h
      simp only [h]
      exact ih

/-! ### Claim theorems -/

/-- C1: the input line `"Jan 05 Jan 07 STARBUCKS COFFEE Restaurants 4.50"`,
processed with resolved year 2024 while the section state is
IN_TRANSACTIONS, yields exactly one transaction record with transaction
date 2024-01-05, post date 2024-01-07, description `"STARBUCKS COFFEE"`,
category `"Restaurants"`, amount 4.50, and no payment record. -/
theorem starbucks_line_one_transaction :
    processLine 2024 ⟨true, false⟩ "Jan 05 Jan 07 STARBUCKS COFFEE Restaurants 4.50" =
      (some ⟨"CIBC", some ⟨2024, 1, 5⟩, some ⟨2024, 1, 7⟩, "STARBUCKS COFFEE",
        some "Restaurants", (9 : Rat) / 2⟩, none, ⟨true, false⟩) := by
  have h1 : processLine 2024 ⟨true, false⟩
      "Jan 05 Jan 07 STARBUCKS COFFEE Restaurants 4.50" =
      (some ⟨"CIBC", some ⟨2024, 1, 5⟩, some ⟨2024, 1, 7⟩, "STARBUCKS COFFEE",
        some "Restaurants", mkRat 9 2⟩, none, ⟨true, false⟩) := by decide
  have h2 : mkRat 9 2 = (9 : Rat) / 2 := by
    rw [Rat.mkRat_eq_div]
    norm_num
  rw [h1, h2]

/-- C5: the Category Normalizer returns the label of the first rule in the
ordered rule list whose substring occurs in the upper-cased description and
returns the current category unchanged when no rule matches; in particular
`"UBER EATS TORONTO"` with positional category `"Misc"` normalizes to
`"Restaurants"` — the rule list takes precedence over the positional token. -/
theorem category_rules_first_match_precedence :
    (∀ (d : String) (c : Option String),
      apply_category_rules d c =
        (((CATEGORY_RULES.find? (fun r => hasSub r.1.toList (upperChars d.toList))).map
          (fun r => some r.2)).getD c)) ∧
    apply_category_rules "UBER EATS TORONTO" (some "Misc") = some "Restaurants" := by
  constructor
  · intro d c
    unfold apply_category_rules
    by_cases hd : d = ""
    · subst hd
      rw [if_pos rfl]
      rw [show (CATEGORY_RULES.find?
        (fun r => hasSub r.1.toList (upperChars "".toList))) = none from by decide]
      rfl
    · rw [if_neg hd, ruleScan_eq_find]
      cases CATEGORY_RULES.find? (fun r => hasSub r.1.toList (upperChars d.toList)) with
      | none => rfl
      | some r => rfl
  · decide

/-- C7: the amount parser maps `"$1,234.56"` to 1234.56, `"-45.00"` to
−45.00, `"12.3"` to 12.3, and the blank token `" "` to no numeric result. -/
theorem amount_parse_cases :
    parse_amount "$1,234.56" = some ((123456 : Rat) / 100) ∧
    parse_amount "-45.00" = some (-(45 : Rat)) ∧
    parse_amount "12.3" = some ((123 : Rat) / 10) ∧
    parse_amount " " = none := by
  refine ⟨?_, ?_, ?_, by decide⟩
  · have h : parse_amount "$1,234.56" = some (mkRat 123456 100) := by decide
    rw [h, Rat.mkRat_eq_div]
    norm_num
  · have h : parse_amount "-45.00" = some (mkRat (-45) 1) := by decide
    rw [h, Rat.mkRat_eq_div]
    norm_num
  · have h : parse_amount "12.3" = some (mkRat 123 10) := by decide
    rw [h, Rat.mkRat_eq_div]
    norm_num

/-- C2: a line never contributes to both output collections, and any
admitted line (non-marker, passing extraction) whose description contains a
payment keyword is emitted as a payment — and not as a transaction —
whatever the current section state. -/
theorem payment_exclusive_and_keyword_wins (year : Nat) (st : PState) (ln : String) :
    (¬((processLine year st ln).1.isSome = true ∧
       (processLine year st ln).2.1.isSome = true)) ∧
    (∀ f : Fields, sectionStep (pyStrip ln) = none →
      extractFields (pyStrip ln) year = some f →
      looks_like_payment f.description = true →
      (processLine year st ln).2.1 =
        some ⟨"CIBC", f.transDate, f.postDate, f.description, f.amount⟩ ∧
      (processLine year st ln).1 = none) := by
  constructor
  · rintro ⟨h1, h2⟩
    by_cases hb : pyStrip ln = ""
    · unfold processLine at h1
      rw [if_pos hb] at h1
      simp at h1
    · cases hm : sectionStep (pyStrip ln) with
      | some st' =>
        unfold processLine at h1
        rw [if_neg hb, hm] at h1
        simp at h1
      | none =>
        cases hx : extractFields (pyStrip ln) year with
        | none =>
          rw [(processLine_of_extract_none year st ln hx).1] at h1
          simp at h1
        | some f =>
          rw [processLine_eq_classify year st ln f hm hx] at h1 h2
          rcases classify_at_most_one st f with h | h
          · rw [h] at h1; simp at h1
          · rw [h] at h2; simp at h2
  · intro f hm hx hpay
    rw [processLine_eq_classify year st ln f hm hx]
    unfold classify
    rw [hpay, if_pos (by simp)]
    exact ⟨rfl, rfl⟩

/-- C2 witness: a payment-keyword line inside the transactions section is
emitted as a payment and not as a transaction. -/
theorem payment_exclusive_and_keyword_wins_check :
    (processLine 2024 ⟨true, false⟩ "Jan 05 Jan 07 ONLINE PAYMENT XX 45.00").2.1 =
      some ⟨"CIBC", some ⟨2024, 1, 5⟩, some ⟨2024, 1, 7⟩, "ONLINE PAYMENT XX",
        mkRat 45 1⟩ ∧
    (processLine 2024 ⟨true, false⟩ "Jan 05 Jan 07 ONLINE PAYMENT XX 45.00").1 = none :=
  (payment_exclusive_and_keyword_wins 2024 ⟨true, false⟩
      "Jan 05 Jan 07 ONLINE PAYMENT XX 45.00").2
    ⟨["Jan", "05", "Jan", "07", "ONLINE", "PAYMENT", "XX", "45.00"], mkRat 45 1,
      some ⟨2024, 1, 5⟩, some ⟨2024, 1, 7⟩, "ONLINE PAYMENT XX"⟩
    (by decide) (by decide) (by decide)

/-- C3: a line failing any part of the 3-part admission gate (month token,
parseable trailing amount, at least 6 whitespace tokens) produces no
transaction record and no payment record, in every section state. -/
theorem gate_monotonicity (year : Nat) (st : PState) (ln : String)
    (h : admissionGate (pyStrip ln) = false) :
    (processLine year st ln).1 = none ∧ (processLine year st ln).2.1 = none :=
  processLine_of_extract_none year st ln
    (extract_none_of_gate_false (pyStrip ln) year h)

/-- C3 witness: a running-total line with no month token yields no record. -/
theorem gate_monotonicity_check :
    (processLine 2024 ⟨true, false⟩ "Running total 1,234.56").1 = none ∧
    (processLine 2024 ⟨true, false⟩ "Running total 1,234.56").2.1 = none :=
  gate_monotonicity 2024 ⟨true, false⟩ "Running total 1,234.56" (by decide)

/-- C4: an admitted candidate line whose (trimmed) text does not start with
the prefix reconstructed from its first four whitespace tokens produces no
record, even though it passed the 3-part admission gate. -/
theorem prefix_reconstruction_guard (year : Nat) (st : PState) (ln : String)
    (_hg : admissionGate (pyStrip ln) = true)
    (hh : (headOf (pyStrip ln)).toList.isPrefixOf (pyStrip ln).toList = false) :
    (processLine year st ln).1 = none ∧ (processLine year st ln).2.1 = none :=
  processLine_of_extract_none year st ln
    (extract_none_of_head_mismatch (pyStrip ln) year hh)

/-- C4 witness: a double space after the first token makes the
reconstructed prefix mismatch, so the gate-passing line is dropped. -/
theorem prefix_reconstruction_guard_check :
    admissionGate (pyStrip "Jan  05 Jan 07 STARBUCKS COFFEE Restaurants 4.50") = true ∧
    (processLine 2024 ⟨true, false⟩
      "Jan  05 Jan 07 STARBUCKS COFFEE Restaurants 4.50").1 = none ∧
    (processLine 2024 ⟨true, false⟩
      "Jan  05 Jan 07 STARBUCKS COFFEE Restaurants 4.50").2.1 = none :=
  ⟨by decide,
    prefix_reconstruction_guard 2024 ⟨true, false⟩
      "Jan  05 Jan 07 STARBUCKS COFFEE Restaurants 4.50" (by decide) (by decide)⟩

/-- C6: every emitted record's amount is the successfully parsed value of
the line's trailing amount token, and a line whose trailing token does not
resolve to a number (or that has no trailing amount token) is discarded
with no record emitted. -/
theorem amount_always_resolvable (year : Nat) (st : PState) (ln : String) :
    ((∀ tok, findAmtSuffix (pyStrip ln).toList = some tok →
        parse_amount (String.mk tok) = none) →
      (processLine year st ln).1 = none ∧ (processLine year st ln).2.1 = none) ∧
    (∀ r : TxRecord, (processLine year st ln).1 = some r →
      ∃ tok, findAmtSuffix (pyStrip ln).toList = some tok ∧
        parse_amount (String.mk tok) = some r.amount) ∧
    (∀ r : PayRecord, (processLine year st ln).2.1 = some r →
      ∃ tok, findAmtSuffix (pyStrip ln).toList = some tok ∧
        parse_amount (String.mk tok) = some r.amount) := by
  refine ⟨?_, ?_, ?_⟩
  · intro hfail
    refine processLine_of_extract_none year st ln ?_
    unfold extractFields
    split
    · rfl
    · split
      · rfl
      · rename_i tok heq
        split
        · rfl
        · rename_i amt hp
          rw [hfail tok heq] at hp
          cases hp
  · intro r hr
    unfold processLine at hr
    split at hr
    · cases hr
    · split at hr
      · cases hr
      · split at hr
        · cases hr
        · rename_i f hx
          obtain ⟨tok, htok, hamt⟩ := extract_amount_eq (pyStrip ln) year f hx
          refine ⟨tok, htok, ?_⟩
          unfold classify at hr
          split at hr
          · cases hr
          · split at hr
            · split at hr
              · cases hr; exact hamt
              · cases hr; exact hamt
            · cases hr
  · intro r hr
    unfold processLine at hr
    split at hr
    · cases hr
    · split at hr
      · cases hr
      · split at hr
        · cases hr
        · rename_i f hx
          obtain ⟨tok, htok, hamt⟩ := extract_amount_eq (pyStrip ln) year f hx
          refine ⟨tok, htok, ?_⟩
          unfold classify at hr
          split at hr
          · cases hr; exact hamt
          · split at hr
            · split at hr
              · cases hr
              · cases hr
            · cases hr

/-- C6 witness: a line with no trailing amount token is discarded, and the
Starbucks transaction's 4.50 is the parsed value of its trailing token. -/
theorem amount_always_resolvable_check :
    ((processLine 2024 ⟨true, false⟩ "Jan 05 Jan 07 COFFEE SHOP totals").1 = none ∧
     (processLine 2024 ⟨true, false⟩ "Jan 05 Jan 07 COFFEE SHOP totals").2.1 = none) ∧
    (∃ tok, findAmtSuffix
        (pyStrip "Jan 05 Jan 07 STARBUCKS COFFEE Restaurants 4.50").toList = some tok ∧
      parse_amount (String.mk tok) =
        some (TxRecord.amount ⟨"CIBC", some ⟨2024, 1, 5⟩, some ⟨2024, 1, 7⟩,
          "STARBUCKS COFFEE", some "Restaurants", mkRat 9 2⟩)) :=
  ⟨(amount_always_resolvable 2024 ⟨true, false⟩ "Jan 05 Jan 07 COFFEE SHOP totals").1
      (by intro tok h
          rw [show findAmtSuffix
            (pyStrip "Jan 05 Jan 07 COFFEE SHOP totals").toList = none from by decide] at h
          cases h),
    (amount_always_resolvable 2024 ⟨true, false⟩
        "Jan 05 Jan 07 STARBUCKS COFFEE Restaurants 4.50").2.1
      ⟨"CIBC", some ⟨2024, 1, 5⟩, some ⟨2024, 1, 7⟩, "STARBUCKS COFFEE",
        some "Restaurants", mkRat 9 2⟩
      (by decide)⟩

/-- C9: while the section state is NEUTRAL (both flags false), no
transaction record is ever emitted, and a payment record is emitted only
when its description contains a payment keyword — so a line whose
description contains no payment keyword is silently dropped even when it
passes the admission gate and the prefix check. -/
theorem neutral_state_emits_nothing (year : Nat) (ln : String) :
    (processLine year ⟨false, false⟩ ln).1 = none ∧
    (∀ r : PayRecord, (processLine year ⟨false, false⟩ ln).2.1 = some r →
      looks_like_payment r.description = true) := by
  constructor
  · unfold processLine
    split
    · rfl
    · split
      · rfl
      · split
        · rfl
        · rename_i f _
          unfold classify
          split
          · rfl
          · split
            · rename_i hpay htxn
              cases htxn
            · rfl
  · intro r hr
    unfold processLine at hr
    split at hr
    · cases hr
    · split at hr
      · cases hr
      · split at hr
        · cases hr
        · rename_i f _
          unfold classify at hr
          split at hr
          · rename_i hcond
            cases hr
            simpa using hcond
          · split at hr
            · split at hr
              · cases hr
              · cases hr
            · cases hr

/-- C9 witness: in the NEUTRAL state the Starbucks line yields nothing,
while a payment-keyword line yields a payment whose description contains
the keyword. -/
theorem neutral_state_emits_nothing_check :
    (processLine 2024 ⟨false, false⟩
      "Jan 05 Jan 07 STARBUCKS COFFEE Restaurants 4.50").1 = none ∧
    looks_like_payment "ONLINE PAYMENT XX" = true :=
  ⟨(neutral_state_emits_nothing 2024
      "Jan 05 Jan 07 STARBUCKS COFFEE Restaurants 4.50").1,
    (neutral_state_emits_nothing 2024 "Jan 05 Jan 07 ONLINE PAYMENT XX 45.00").2
      ⟨"CIBC", some ⟨2024, 1, 5⟩, some ⟨2024, 1, 7⟩, "ONLINE PAYMENT XX", mkRat 45 1⟩
      (by decide)⟩

/-! ### The year resolver -/

/-- Declarative, position-indexed reading of the year pattern: a
`\b(20\d{2})\b` match starting at index `i` of the text, yielding the
year's integer value. -/
def matchAt (cs : List Char) (i : Nat) : Option Nat :=
  if boundaryOk (if i = 0 then none else some (cs.getD (i - 1) ' ')) then
    yearHere (cs.drop i)
  else
    none

/-- The year scanner agrees with the position-indexed first match over the
positions `i, i+1, …` it still has to visit. -/
theorem findYear_scan_eq (cs : List Char) :
    ∀ (n i : Nat), cs.length - i = n →
      findYear (if i = 0 then none else some (cs.getD (i - 1) ' ')) (cs.drop i) =
        (List.range' i n).findSome? (matchAt cs) := by
  intro n
  induction n with
  | zero =>
    intro i hi
    rw [List.drop_eq_nil_of_le (by omega)]
    rfl
  | succ n ih =>
    intro i hi
    obtain ⟨c, t, hdrop⟩ : ∃ c t, cs.drop i = c :: t := by
      cases hd : cs.drop i with
      | nil =>
        exfalso
        have := List.drop_eq_nil_iff.mp hd
        omega
      | cons c t => exact ⟨c, t, rfl⟩
    have ht : t = cs.drop (i + 1) := by
      have htl := List.tail_drop cs i
      rw [hdrop] at htl
      simpa using htl
    have hc : cs[i]? = some c := by
      rw [← List.head?_drop, hdrop]
      rfl
    have hmA : matchAt cs i =
        (if boundaryOk (if i = 0 then none else some (cs.getD (i - 1) ' ')) then
          yearHere (c :: t) else none) := by
      unfold matchAt
      rw [hdrop]
    rw [hdrop]
    have lhsEq : findYear (if i = 0 then none else some (cs.getD (i - 1) ' ')) (c :: t) =
        match (if boundaryOk (if i = 0 then none else some (cs.getD (i - 1) ' ')) then
          yearHere (c :: t) else none) with
        | some v => some v
        | none => findYear (some c) t := rfl
    rw [lhsEq, ← hmA, List.range'_succ, List.findSome?_cons]
    cases hcase : matchAt cs i with
    | some v => rfl
    | none =>
      have hprev : (some c : Option Char) =
          (if i + 1 = 0 then none else some (cs.getD (i + 1 - 1) ' ')) := by
        simp [List.getD_eq_getElem?_getD, hc]
      rw [ht, hprev]
      exact ih (i + 1) (by omega)

/-- C8: the Year Resolver returns the value of the first `20xx` four-digit
token occurring in the text (scanning positions left to right, a token
being delimited by word boundaries), and the supplied current calendar year
when no such token occurs anywhere (`Option.getD`). -/
theorem guess_year_first_token (text : String) (todayYear : Nat) :
    guess_year text todayYear =
      ((List.range' 0 text.toList.length).findSome? (matchAt text.toList)).getD
        todayYear := by
  unfold guess_year
  have h := findYear_scan_eq text.toList text.toList.length 0 rfl
  rw [if_pos rfl, List.drop_zero] at h
  rw [h]

/-! ### Totality of amount parsing on regex-matched tokens -/

/-- `dropWhile` is the identity when no element satisfies the predicate. -/
theorem dropWhile_eq_self_of_all {p : Char → Bool} {l : List Char}
    (h : ∀ x ∈ l, p x = false) : l.dropWhile p = l := by
  cases l with
  | nil => rfl
  | cons c t =>
    rw [List.dropWhile_cons,
      if_neg (by rw [h c (List.mem_cons_self c t)]; exact Bool.false_ne_true)]

/-- Stripping is the identity on whitespace-free character lists. -/
theorem trimChars_eq_self {l : List Char} (h : ∀ x ∈ l, isWs x = false) :
    trimChars l = l := by
  unfold trimChars
  rw [dropWhile_eq_self_of_all h,
    dropWhile_eq_self_of_all (fun x hx => h x (List.mem_reverse.mp hx)),
    List.reverse_reverse]

/-- When `splitFirstDot` reports no dot, the input is its first component. -/
theorem splitFirstDot_none {r b : List Char} (h : splitFirstDot r = (b, none)) :
    r = b := by
  induction r generalizing b with
  | nil =>
    cases h
    rfl
  | cons c t ih =>
    unfold splitFirstDot at h
    by_cases hc : c = '.'
    · rw [if_pos hc] at h
      exact Option.noConfusion (congrArg Prod.snd h)
    · rw [if_neg hc] at h
      have h1 : c :: (splitFirstDot t).1 = b := congrArg Prod.fst h
      have h2 : (splitFirstDot t).2 = none := congrArg Prod.snd h
      have ht : t = (splitFirstDot t).1 := by
        refine ih ?_
        rw [← h2]
      rw [← h1, ← ht]

/-- When `splitFirstDot` reports a dot, the input splits around it. -/
theorem splitFirstDot_some {r b a : List Char} (h : splitFirstDot r = (b, some a)) :
    r = b ++ '.' :: a := by
  induction r generalizing b with
  | nil => exact Option.noConfusion (congrArg Prod.snd h)
  | cons c t ih =>
    unfold splitFirstDot at h
    by_cases hc : c = '.'
    · rw [if_pos hc] at h
      have h1 : ([] : List Char) = b := congrArg Prod.fst h
      have h2 : t = a := Option.some.inj (congrArg Prod.snd h)
      rw [← h1, hc, h2]
      rfl
    · rw [if_neg hc] at h
      have h1 : c :: (splitFirstDot t).1 = b := congrArg Prod.fst h
      have h2 : (splitFirstDot t).2 = some a := congrArg Prod.snd h
      have ht : t = (splitFirstDot t).1 ++ '.' :: a := by
        refine ih ?_
        rw [← h2]
      rw [← h1, List.cons_append, ← ht]

/-- Digits are not whitespace. -/
theorem not_ws_of_digit {c : Char} (h : c.isDigit = true) : isWs c = false := by
  by_contra hcon
  rw [Bool.not_eq_false] at hcon
  unfold isWs at hcon
  simp only [Bool.or_eq_true, decide_eq_true_eq] at hcon
  rcases hcon with ((((rfl | rfl) | rfl) | rfl) | rfl) | rfl <;> exact absurd h (by decide)

/-- Digits survive the separator/currency filter. -/
theorem keep_of_digit {c : Char} (h : c.isDigit = true) : keepAmtChar c = true := by
  unfold keepAmtChar
  rw [decide_eq_false (fun he : c = ',' => absurd (he ▸ h) (by decide)),
    decide_eq_false (fun he : c = '$' => absurd (he ▸ h) (by decide))]
  rfl

/-- The filter is the identity on all-digit lists. -/
theorem filter_keep_digits {l : List Char} (h : l.all Char.isDigit = true) :
    l.filter keepAmtChar = l := by
  induction l with
  | nil => rfl
  | cons c t ih =>
    rw [List.all_cons, Bool.and_eq_true] at h
    rw [List.filter_cons, if_pos (keep_of_digit h.1), ih h.2]

/-- Filtering a digits-and-commas list leaves only digits. -/
theorem filter_keep_digitComma {l : List Char} (h : l.all isDigitComma = true) :
    (l.filter keepAmtChar).all Char.isDigit = true := by
  induction l with
  | nil => rfl
  | cons c t ih =>
    rw [List.all_cons, Bool.and_eq_true] at h
    rw [List.filter_cons]
    by_cases hk : keepAmtChar c = true
    · rw [if_pos hk, List.all_cons, Bool.and_eq_true]
      refine ⟨?_, ih h.2⟩
      have h1 := h.1
      unfold isDigitComma at h1
      rw [Bool.or_eq_true] at h1
      rcases h1 with hd | hcom
      · exact hd
      · rw [decide_eq_true_eq] at hcom
        exact absurd (hcom ▸ hk) (by decide)
    · rw [if_neg hk]
      exact ih h.2

/-- `spanDigits` consumes an all-digit list entirely. -/
theorem spanDigits_all {l : List Char} (h : l.all Char.isDigit = true) :
    spanDigits l = (l, []) := by
  induction l with
  | nil => rfl
  | cons c t ih =>
    rw [List.all_cons, Bool.and_eq_true] at h
    unfold spanDigits
    rw [if_pos h.1]
    simp only [ih h.2]

/-- `spanDigits` stops exactly at a dot following an all-digit run. -/
theorem spanDigits_append_dot (l r : List Char) (h : l.all Char.isDigit = true) :
    spanDigits (l ++ '.' :: r) = (l, '.' :: r) := by
  induction l with
  | nil =>
    show spanDigits ('.' :: r) = ([], '.' :: r)
    unfold spanDigits
    rw [if_neg (by decide)]
  | cons c t ih =>
    rw [List.all_cons, Bool.and_eq_true] at h
    show spanDigits (c :: (t ++ '.' :: r)) = (c :: t, '.' :: r)
    unfold spanDigits
    rw [if_pos h.1]
    simp only [ih h.2]

/-- Unfolding `pyUnsigned` when the whole input is one digit run. -/
theorem pyUnsigned_span_nil {l X : List Char} (h : spanDigits l = (X, [])) :
    pyUnsigned l =
      if X.isEmpty then none else some (mkRat (Int.ofNat (natOfDigits X)) 1) := by
  unfold pyUnsigned
  rw [h]

/-- Unfolding `pyUnsigned` when the digit run is followed by a dot. -/
theorem pyUnsigned_span_dot {l X r2 : List Char} (h : spanDigits l = (X, '.' :: r2)) :
    pyUnsigned l = pyFrac X r2 := by
  unfold pyUnsigned
  rw [h]
  rfl

/-- Unfolding `pyFrac` when the fraction is one digit run. -/
theorem pyFrac_span {ip r2 F : List Char} (h : spanDigits r2 = (F, [])) :
    pyFrac ip r2 =
      if ip.isEmpty && F.isEmpty then none
      else some (mkRat (Int.ofNat (natOfDigits (ip ++ F))) (10 ^ F.length)) := by
  unfold pyFrac
  rw [h]

/-- Reading off `pySign` when the head is not a sign character. -/
theorem pySign_of_ne {c : Char} (X : List Char) (h1 : c ≠ '-') (h2 : c ≠ '+') :
    pySign (c :: X) = (false, c :: X) := by
  show (if c = '-' then ((true, X) : Bool × List Char)
    else if c = '+' then (false, X) else (false, c :: X)) = (false, c :: X)
  rw [if_neg h1, if_neg h2]

/-- Reading off `pySign` at a leading minus. -/
theorem pySign_neg (X : List Char) : pySign ('-' :: X) = (true, X) := by
  show (if ('-' : Char) = '-' then ((true, X) : Bool × List Char)
    else if ('-' : Char) = '+' then (false, X) else (false, '-' :: X)) = (true, X)
  rw [if_pos rfl]

/-- A filtered amount body — a digit, then digits, then an optional dot
with an all-digit fraction — always parses, with or without a minus. -/
theorem pyFloat_shape {c : Char} {D rest : List Char} (hc : c.isDigit = true)
    (hD : D.all Char.isDigit = true)
    (hrest : rest = [] ∨ ∃ a, rest = '.' :: a ∧ a.all Char.isDigit = true) :
    (pyFloatOfChars (c :: (D ++ rest))).isSome = true ∧
    (pyFloatOfChars ('-' :: c :: (D ++ rest))).isSome = true := by
  have hnws : ∀ x ∈ c :: (D ++ rest), isWs x = false := by
    intro x hx
    rcases List.mem_cons.mp hx with rfl | hx2
    · exact not_ws_of_digit hc
    · rcases List.mem_append.mp hx2 with hxD | hxr
      · exact not_ws_of_digit (List.all_eq_true.mp hD x hxD)
      · rcases hrest with rfl | ⟨a, rfl, ha⟩
        · cases hxr
        · rcases List.mem_cons.mp hxr with rfl | hxa
          · decide
          · exact not_ws_of_digit (List.all_eq_true.mp ha x hxa)
  have hnws2 : ∀ x ∈ '-' :: c :: (D ++ rest), isWs x = false := by
    intro x hx
    rcases List.mem_cons.mp hx with rfl | hx2
    · decide
    · exact hnws x hx2
  have hall : (c :: D).all Char.isDigit = true := by
    rw [List.all_cons, Bool.and_eq_true]
    exact ⟨hc, hD⟩
  have hbody : (pyUnsigned (c :: (D ++ rest))).isSome = true := by
    rcases hrest with rfl | ⟨a, rfl, ha⟩
    · rw [List.append_nil, pyUnsigned_span_nil (spanDigits_all hall),
        if_neg (by simp)]
      rfl
    · have hsp : spanDigits (c :: (D ++ '.' :: a)) = (c :: D, '.' :: a) :=
        spanDigits_append_dot (c :: D) a hall
      rw [pyUnsigned_span_dot hsp, pyFrac_span (spanDigits_all ha),
        if_neg (by simp)]
      rfl
  have hcm : c ≠ '-' := fun he => absurd (he ▸ hc) (by decide)
  have hcp : c ≠ '+' := fun he => absurd (he ▸ hc) (by decide)
  constructor
  · unfold pyFloatOfChars
    rw [trimChars_eq_self hnws, pySign_of_ne (D ++ rest) hcm hcp]
    simp only [Option.isSome_map']
    exact hbody
  · unfold pyFloatOfChars
    rw [trimChars_eq_self hnws2, pySign_neg (c :: (D ++ rest))]
    simp only [Option.isSome_map']
    exact hbody

/-- Inversion for the optional-character eater of the token pattern. -/
theorem dropOptChar_eq {a : Char} {l m : List Char} (h : dropOptChar a l = m) :
    l = m ∨ l = a :: m := by
  cases l with
  | nil =>
    left
    rw [← h]
    rfl
  | cons c t =>
    have h' : (if c = a then t else c :: t) = m := h
    by_cases hc : c = a
    · right
      rw [if_pos hc] at h'
      rw [hc, h']
    · left
      rw [if_neg hc] at h'
      rw [h']

/-- C10: every token matched by the trailing-amount pattern (optional
minus, optional currency symbol, a digit, digits/commas, optional dot,
at most two fraction digits) is successfully parsed by the amount parser —
the semantic-parse-failure branch after a regex match is unreachable. -/
theorem regex_token_always_parses (s : String) (h : amtTok s.toList = true) :
    (parse_amount s).isSome = true := by
  unfold amtTok at h
  cases hdd : dropOptChar '$' (dropOptChar '-' s.toList) with
  | nil =>
    rw [hdd] at h
    cases h
  | cons c r =>
    rw [hdd] at h
    have h' : (c.isDigit && amtTail r) = true := h
    rw [Bool.and_eq_true] at h'
    obtain ⟨hc, hTail⟩ := h'
    obtain ⟨D, rest, hfil, hD, hrest⟩ :
        ∃ D rest, r.filter keepAmtChar = D ++ rest ∧ D.all Char.isDigit = true ∧
          (rest = [] ∨ ∃ a, rest = '.' :: a ∧ a.all Char.isDigit = true) := by
      unfold amtTail at hTail
      cases hsd : splitFirstDot r with
      | mk b o =>
        rw [hsd] at hTail
        cases o with
        | none =>
          have hb : b.all isDigitComma = true := hTail
          refine ⟨r.filter keepAmtChar, [], (List.append_nil _).symm, ?_, Or.inl rfl⟩
          rw [splitFirstDot_none hsd]
          exact filter_keep_digitComma hb
        | some a =>
          have h3 : b.all isDigitComma = true ∧ a.all Char.isDigit = true := by
            have h4 : (b.all isDigitComma && a.all Char.isDigit &&
                decide (a.length ≤ 2)) = true := hTail
            simp only [Bool.and_eq_true] at h4
            exact ⟨h4.1.1, h4.1.2⟩
          refine ⟨b.filter keepAmtChar, '.' :: a, ?_,
            filter_keep_digitComma h3.1, Or.inr ⟨a, rfl, h3.2⟩⟩
          rw [splitFirstDot_some hsd, List.filter_append, List.filter_cons,
            if_pos (by decide : keepAmtChar '.' = true), filter_keep_digits h3.2]
    unfold parse_amount
    rcases dropOptChar_eq hdd with h1 | h1 <;> rcases dropOptChar_eq h1 with h2 | h2
    · rw [h2, List.filter_cons, if_pos (keep_of_digit hc), hfil]
      exact (pyFloat_shape hc hD hrest).1
    · rw [h2, List.filter_cons, if_pos (by decide : keepAmtChar '-' = true),
        List.filter_cons, if_pos (keep_of_digit hc), hfil]
      exact (pyFloat_shape hc hD hrest).2
    · rw [h2, List.filter_cons, if_neg (by decide), List.filter_cons,
        if_pos (keep_of_digit hc), hfil]
      exact (pyFloat_shape hc hD hrest).1
    · rw [h2, List.filter_cons, if_pos (by decide : keepAmtChar '-' = true),
        List.filter_cons, if_neg (by decide), List.filter_cons,
        if_pos (keep_of_digit hc), hfil]
      exact (pyFloat_shape hc hD hrest).2

/-- C10 witness: the token `"$1,234.56"` matches the pattern and parses. -/
theorem regex_token_always_parses_check :
    amtTok "$1,234.56".toList = true ∧ (parse_amount "$1,234.56").isSome = true :=
  ⟨by decide, regex_token_always_parses "$1,234.56" (by decide)⟩

end FinanceTracker
